import Mathlib

/-!
Verification of the UnrealityTV detection core against its specification.

This file shallowly embeds the algorithmic core of the repository:

* `DetectionOrchestrator._merge_scene_lists` (detectors/orchestrator.py),
  both as a value-level function on lists of `SceneBoundary` records and as
  a heap-passing function that makes the source's in-place mutation of
  scene objects observable;
* `DetectionOrchestrator._detect_with_hybrid_extended`, modelled over the
  outcomes of the four scanner calls it makes;
* `CacheManager.get` / `CacheManager.set` / `CacheManager.cleanup_expired`
  (cache.py), with the backing file store modelled as a map from sanitized
  file names to entries and wall-clock time passed explicitly as a rational;
* `DuplicateFinder._hamming_distance` (visual/duplicate_finder.py) together
  with a model of Python's `int(s, 16)` hex parsing, xor on unbounded
  integers, and `bin(x).count("1")`;
* `_group_duplicates_into_segments` / `_create_segment_from_group` and the
  guard logic of `detect_visual_duplicates`
  (detectors/visual_duplicate_detector.py).

Theorems at the end of the file settle the spec claims about these
functions.
-/

/-- Embeds `SceneBoundary` from models.py: `start_ms`, `end_ms`,
`scene_index`, all Python ints. -/
structure SceneBoundary where
  start_ms : Int
  end_ms : Int
  scene_index : Int
deriving DecidableEq, Repr

/-- Sort key used by `_merge_scene_lists`: `lambda s: (s.start_ms, s.end_ms)`. -/
def SceneBoundary.key (s : SceneBoundary) : Int × Int :=
  (s.start_ms, s.end_ms)

/-- Lexicographic order on `(start_ms, end_ms)` pairs, the comparison that
Python's `sorted` performs on the tuples produced by the sort key. -/
def pairLe (p q : Int × Int) : Prop :=
  p.1 < q.1 ∨ (p.1 = q.1 ∧ p.2 ≤ q.2)

instance : DecidableRel pairLe := fun p q =>
  inferInstanceAs (Decidable (p.1 < q.1 ∨ (p.1 = q.1 ∧ p.2 ≤ q.2)))

instance : IsTotal (Int × Int) pairLe := by
  constructor
  intro a b
  obtain ⟨a1, a2⟩ := a
  obtain ⟨b1, b2⟩ := b
  simp only [pairLe]
  omega

instance : IsTrans (Int × Int) pairLe := by
  constructor
  intro a b c hab hbc
  obtain ⟨a1, a2⟩ := a
  obtain ⟨b1, b2⟩ := b
  obtain ⟨c1, c2⟩ := c
  simp only [pairLe] at hab hbc ⊢
  omega

instance : IsAntisymm (Int × Int) pairLe := by
  constructor
  intro a b hab hba
  obtain ⟨a1, a2⟩ := a
  obtain ⟨b1, b2⟩ := b
  simp only [pairLe] at hab hba
  simp only [Prod.mk.injEq]
  omega

/-- Comparison of scenes by their sort key, as performed by
`sorted(scenes1 + scenes2, key=lambda s: (s.start_ms, s.end_ms))`. -/
def sceneLe (a b : SceneBoundary) : Prop :=
  pairLe a.key b.key

instance : DecidableRel sceneLe := fun a b =>
  inferInstanceAs (Decidable (pairLe a.key b.key))

instance : IsTotal SceneBoundary sceneLe :=
  ⟨fun a b => IsTotal.total (r := pairLe) a.key b.key⟩

instance : IsTrans SceneBoundary sceneLe :=
  ⟨fun _ _ _ hab hbc => Trans.trans (r := pairLe) (s := pairLe) hab hbc⟩

/-- The sweep loop of `_merge_scene_lists`: `cur` is the current last
element of `merged`; an incoming scene whose `start_ms` is within 100 ms of
`cur.end_ms` extends `cur`, otherwise `cur` is emitted and the incoming
scene becomes current. -/
def sweepMerge (cur : SceneBoundary) : List SceneBoundary → List SceneBoundary
  | [] => [cur]
  | s :: rest =>
    if s.start_ms ≤ cur.end_ms + 100 then
      sweepMerge { cur with end_ms := max cur.end_ms s.end_ms } rest
    else
      cur :: sweepMerge s rest

/-- The whole `for scene in all_scenes` loop: the first scene seeds
`merged`, the rest are swept. -/
def sweepAll : List SceneBoundary → List SceneBoundary
  | [] => []
  | s :: rest => sweepMerge s rest

/-- The re-indexing loop `for i, scene in enumerate(merged):
scene.scene_index = i`, at the level of output values, generalized over the
starting index. -/
def reindexFrom : Int → List SceneBoundary → List SceneBoundary
  | _, [] => []
  | n, s :: rest => { s with scene_index := n } :: reindexFrom (n + 1) rest

/-- Value-level embedding of `DetectionOrchestrator._merge_scene_lists`.
If either input list is empty the other is returned unchanged; otherwise
the concatenation is sorted by `(start_ms, end_ms)`, swept, and
re-indexed. -/
def merge_scene_lists (scenes1 scenes2 : List SceneBoundary) : List SceneBoundary :=
  if scenes2 = [] then scenes1
  else if scenes1 = [] then scenes2
  else
    reindexFrom 0 (sweepAll (List.insertionSort sceneLe (scenes1 ++ scenes2)))

/-- Heap of Python scene objects: object ids map to their current field
values. Used to make the in-place mutation of `_merge_scene_lists`
observable. -/
def SceneHeap : Type := Nat → SceneBoundary

/-- Assignment to one object's fields, as in `last.end_ms = ...` or
`scene.scene_index = i`. -/
def updateHeap (h : SceneHeap) (i : Nat) (s : SceneBoundary) : SceneHeap :=
  fun j => if j = i then s else h j

instance heapSortDecidable (h : SceneHeap) :
    DecidableRel (fun i j : Nat => pairLe (h i).key (h j).key) := fun i j =>
  inferInstanceAs (Decidable (pairLe (h i).key (h j).key))

/-- The sweep loop of `_merge_scene_lists` over object ids: the
`last.end_ms = max(last.end_ms, scene.end_ms)` branch overwrites the kept
object's `end_ms` field in the heap. -/
def sweepMergeObj (h : SceneHeap) (curId : Nat) :
    List Nat → SceneHeap × List Nat
  | [] => (h, [curId])
  | i :: rest =>
    if (h i).start_ms ≤ (h curId).end_ms + 100 then
      sweepMergeObj
        (updateHeap h curId { h curId with end_ms := max (h curId).end_ms (h i).end_ms })
        curId rest
    else
      let r := sweepMergeObj h i rest
      (r.fst, curId :: r.snd)

/-- The re-indexing loop over object ids: `scene.scene_index = i` rewrites
the `scene_index` field of every object in the merged list. -/
def reindexObjFrom (n : Int) (h : SceneHeap) : List Nat → SceneHeap
  | [] => h
  | i :: rest => reindexObjFrom (n + 1) (updateHeap h i { h i with scene_index := n }) rest

/-- Heap-passing embedding of `DetectionOrchestrator._merge_scene_lists`:
takes the heap of scene objects and the two input lists as lists of object
ids, and returns the final heap together with the returned list. The empty
shortcuts return the input list itself without touching the heap. -/
def merge_scene_lists_obj (h : SceneHeap) (ids1 ids2 : List Nat) :
    SceneHeap × List Nat :=
  if ids2 = [] then (h, ids1)
  else if ids1 = [] then (h, ids2)
  else
    match List.insertionSort (fun i j => pairLe (h i).key (h j).key) (ids1 ++ ids2) with
    | [] => (h, [])
    | i :: rest =>
      let swept := sweepMergeObj h i rest
      (reindexObjFrom 0 swept.fst swept.snd, swept.snd)

/-- Python exception value raised by a scanner, distinguishing
`RuntimeError` (which some scanner boundaries catch) from every other
exception class. -/
inductive PyError where
  | runtimeError (msg : String)
  | otherError (msg : String)
deriving DecidableEq, Repr

/-- Whether an `Except` result is a success. -/
def exceptOk {α : Type} : Except PyError α → Bool
  | .ok _ => true
  | .error _ => false

/-- Whether the `try: ... except RuntimeError` boundary around the
TransNetV2 call in `_detect_with_hybrid_extended` absorbs the neural
scanner's outcome: a success, or a failure that is a `RuntimeError`. -/
def neuralAbsorbed : Except PyError (List SceneBoundary) → Bool
  | .ok _ => true
  | .error (.runtimeError _) => true
  | .error (.otherError _) => false

/-- Embedding of `DetectionOrchestrator._detect_with_hybrid_extended` over
the outcomes of its four scanner calls. The PySceneDetect call is made
outside any `try`; the TransNetV2 call is guarded by
`except RuntimeError`; the silence and credits calls are guarded by
`except Exception`. Successful contributions are concatenated and passed
to `_merge_scene_lists(results, [])` when non-empty. -/
def detect_with_hybrid_extended
    (boundaryResult neuralResult silenceResult creditsResult :
      Except PyError (List SceneBoundary)) :
    Except PyError (List SceneBoundary) :=
  match boundaryResult with
  | .error e => .error e
  | .ok scene_detect_scenes =>
    match neuralResult with
    | .error (.otherError m) => .error (.otherError m)
    | _ =>
      let transnetv2_scenes := match neuralResult with
        | .ok l => l
        | .error _ => []
      let silence_scenes := match silenceResult with
        | .ok l => l
        | .error _ => []
      let credits_scenes := match creditsResult with
        | .ok l => l
        | .error _ => []
      let results :=
        scene_detect_scenes ++ transnetv2_scenes ++ silence_scenes ++ credits_scenes
      .ok (if results = [] then [] else merge_scene_lists results [])

/-- Configuration fields of `CacheConfig` (cache.py) relevant to the cache
semantics: `enabled`, `ttl_seconds` (a non-negative int in the source,
modelled as an arbitrary int), `max_cache_size_mb`. -/
structure CacheConfig where
  enabled : Bool
  ttl_seconds : Int
  max_cache_size_mb : Int
deriving DecidableEq, Repr

/-- One cache file's contents as written by `CacheManager.set`:
`{"value": ..., "timestamp": time.time(), "ttl": ...}`. Timestamps are
rationals standing for the float seconds of `time.time()`. -/
structure CacheEntry (α : Type) where
  value : α
  timestamp : ℚ
  ttl : Int
deriving DecidableEq, Repr

/-- The backing directory: a map from sanitized file names to entries. -/
def CacheStore (α : Type) : Type := String → Option (CacheEntry α)

/-- Embeds `CacheManager._get_cache_file` without the directory and the
`.json` suffix: every character that is not alphanumeric and not `-` or `_`
is replaced by `_`. (The source uses Python's unicode-aware `isalnum`;
this model uses the ASCII classification, which agrees on the ASCII keys
considered here.) -/
def sanitize_key (key : String) : String :=
  ⟨key.data.map (fun c => if c.isAlphanum || c = '-' || c = '_' then c else '_')⟩

namespace CacheManager

/-- Embedding of `CacheManager.get`. Returns the retrieved value (or
`none`) together with the backing store after the read, since an expired
read unlinks the cache file. Expiry compares the entry's age against the
store-wide `config.ttl_seconds` (`if age_seconds > self.config.ttl_seconds`),
not against the ttl recorded in the entry. -/
def get {α : Type} (cfg : CacheConfig) (store : CacheStore α) (now : ℚ)
    (key : String) : Option α × CacheStore α :=
  if cfg.enabled = false then (none, store)
  else
    match store (sanitize_key key) with
    | none => (none, store)
    | some entry =>
      let age_seconds := now - entry.timestamp
      if (cfg.ttl_seconds : ℚ) < age_seconds then
        (none, fun k => if k = sanitize_key key then none else store k)
      else
        (some entry.value, store)

/-- Embedding of `CacheManager.cleanup_expired`: removes every entry whose
age exceeds the ttl recorded in that entry (`data.get("ttl", ...)`; every
entry written by `set` carries a ttl, so the config default branch of the
source never fires in this model). -/
def cleanup_expired {α : Type} (store : CacheStore α) (now : ℚ) : CacheStore α :=
  fun k =>
    match store k with
    | none => none
    | some e => if (e.ttl : ℚ) < now - e.timestamp then none else some e

/-- Error raised by `CacheManager.set` when the write fails; carries the
offending key as a stand-in for the formatted message. -/
inductive CacheError where
  | cacheError (key : String)
deriving DecidableEq, Repr

/-- Embedding of `CacheManager.set`. `write_ok` is the outcome of the
backing json write (false models a disk or serialization failure, whose
exception the source converts into a raised `CacheError`). The stored ttl
is `ttl or self.config.ttl_seconds`, so a ttl of 0 falls back to the
configured default. `size_exceeded` is the outcome of the
`get_cache_size() > max_cache_size_mb` probe, which triggers
`cleanup_expired`. -/
def set {α : Type} (cfg : CacheConfig) (store : CacheStore α) (now : ℚ)
    (key : String) (value : α) (ttl : Option Int) (write_ok : Bool)
    (size_exceeded : Bool) : Except CacheError (CacheStore α) :=
  if cfg.enabled = false then .ok store
  else if write_ok = false then .error (.cacheError key)
  else
    let stored_ttl := match ttl with
      | some t => if t = 0 then cfg.ttl_seconds else t
      | none => cfg.ttl_seconds
    let written : CacheStore α := fun k =>
      if k = sanitize_key key then some ⟨value, now, stored_ttl⟩ else store k
    .ok (if size_exceeded then cleanup_expired written now else written)

end CacheManager

/-- The store-wide defaults of `CacheConfig`: enabled, `ttl_seconds=86400`,
`max_cache_size_mb=500`. -/
def defaultCacheConfig : CacheConfig :=
  { enabled := true, ttl_seconds := 86400, max_cache_size_mb := 500 }

/-- A backing store with no entries. -/
def emptyIntStore : CacheStore Int := fun _ => none

/-- Embeds `DuplicateMatch` from visual/duplicate_finder.py. -/
structure DuplicateMatch where
  source_episode_id : Int
  source_timestamp_ms : Int
  source_phash : String
  match_episode_id : Int
  match_timestamp_ms : Int
  match_phash : String
  hamming_distance : Int
deriving DecidableEq, Repr

/-- Embeds `SkipSegment` from models.py. `segment_type` is the category
string; `confidence` is the float confidence, modelled as a rational. -/
structure SkipSegment where
  start_ms : Int
  end_ms : Int
  segment_type : String
  confidence : ℚ
  reason : String
deriving DecidableEq, Repr

/-- Average Hamming distance of a group:
`sum(m.hamming_distance for m in group) / len(group)` as exact rational
arithmetic in place of Python float division. -/
def group_avg_distance (group : List DuplicateMatch) : ℚ :=
  ((group.map (fun m => (m.hamming_distance : ℚ))).sum) / (group.length : ℚ)

/-- Embedding of `_create_segment_from_group`
(detectors/visual_duplicate_detector.py). The `{avg:.1f}` float formatting
of the diagnostic `reason` string is abstracted as `toString` of the exact
rational; no claim depends on the reason text. -/
def create_segment_from_group (group : List DuplicateMatch)
    (min_duration_ms : Int) : Option SkipSegment :=
  if hg : group = [] then none
  else
    let start_ms := (group.head hg).source_timestamp_ms
    let end_ms := (group.getLast hg).source_timestamp_ms + 1000
    let duration_ms := end_ms - start_ms
    if duration_ms < min_duration_ms then none
    else
      let avg_distance := group_avg_distance group
      let confidence := max 0 (min 1 (1 - avg_distance / 64))
      some
        { start_ms := start_ms
          end_ms := end_ms
          segment_type := "flashback"
          confidence := confidence
          reason := "visual_duplicate(" ++ toString group.length
            ++ " frames, avg_distance=" ++ toString avg_distance ++ ")" }

/-- The grouping loop of `_group_duplicates_into_segments`, returning the
closed groups in order. `current_group` is the group being accumulated and
`previous` the previously visited match (`duplicates[i-1]`). -/
def duplicate_groups_go (gap_tolerance_ms : Int)
    (current_group : List DuplicateMatch) (previous : DuplicateMatch) :
    List DuplicateMatch → List (List DuplicateMatch)
  | [] => [current_group]
  | current :: rest =>
    if current.source_timestamp_ms - previous.source_timestamp_ms ≤ gap_tolerance_ms then
      duplicate_groups_go gap_tolerance_ms (current_group ++ [current]) current rest
    else
      current_group :: duplicate_groups_go gap_tolerance_ms [current] current rest

/-- The groups closed by `_group_duplicates_into_segments` on a list of
matches: the walk starts with `current_group = [duplicates[0]]` and splits
whenever the gap to the previous match exceeds `gap_tolerance_ms`. -/
def duplicate_groups (duplicates : List DuplicateMatch)
    (gap_tolerance_ms : Int) : List (List DuplicateMatch) :=
  match duplicates with
  | [] => []
  | d :: rest => duplicate_groups_go gap_tolerance_ms [d] d rest

/-- Embedding of `_group_duplicates_into_segments`: the source interleaves
closing a group with emitting its segment; that is the same as building
each closed group in order and keeping the segments
`_create_segment_from_group` accepts. -/
def group_duplicates_into_segments (duplicates : List DuplicateMatch)
    (min_duration_ms gap_tolerance_ms : Int) : List SkipSegment :=
  (duplicate_groups duplicates gap_tolerance_ms).filterMap
    (fun g => create_segment_from_group g min_duration_ms)

/-- Value of one hexadecimal digit, as accepted by Python's `int(s, 16)`. -/
def hexDigitVal (c : Char) : Option Nat :=
  if '0' ≤ c ∧ c ≤ '9' then some (c.toNat - '0'.toNat)
  else if 'a' ≤ c ∧ c ≤ 'f' then some (c.toNat - 'a'.toNat + 10)
  else if 'A' ≤ c ∧ c ≤ 'F' then some (c.toNat - 'A'.toNat + 10)
  else none

/-- Continuation of the hex digit run: after at least one digit, further
digits follow directly or after a single underscore. -/
def parseHexDigits : List Char → Nat → Option Nat
  | [], acc => some acc
  | '_' :: rest, acc =>
    match rest with
    | [] => none
    | c :: rest2 =>
      match hexDigitVal c with
      | some d => parseHexDigits rest2 (acc * 16 + d)
      | none => none
  | c :: rest, acc =>
    match hexDigitVal c with
    | some d => parseHexDigits rest (acc * 16 + d)
    | none => none

/-- A non-empty run of hex digits with single underscores allowed between
digits; the first character must be a digit. -/
def parseHexMagnitude : List Char → Option Nat
  | [] => none
  | c :: rest =>
    match hexDigitVal c with
    | some d => parseHexDigits rest d
    | none => none

/-- Optional `0x`/`0X` prefix; Python also allows one underscore right
after the prefix. -/
def parseHexPrefixed : List Char → Option Nat
  | '0' :: 'x' :: rest =>
    (match rest with
     | '_' :: rest2 => parseHexMagnitude rest2
     | _ => parseHexMagnitude rest)
  | '0' :: 'X' :: rest =>
    (match rest with
     | '_' :: rest2 => parseHexMagnitude rest2
     | _ => parseHexMagnitude rest)
  | cs => parseHexMagnitude cs

/-- ASCII whitespace stripped by Python's `int` before parsing. -/
def pyWhitespace (c : Char) : Bool :=
  c = ' ' || c = '\t' || c = '\n' || c = '\r' || c = '\x0b' || c = '\x0c'

/-- Model of Python's `int(s, 16)`: strip surrounding whitespace, then an
optional sign, an optional `0x` prefix and a non-empty digit run; `none`
models the `ValueError` raised on malformed input. (Python additionally
accepts some non-ASCII whitespace and digit characters; the hash strings
considered here are ASCII.) -/
def pyIntHex (s : String) : Option Int :=
  let cs := s.data.dropWhile pyWhitespace
  let cs := (cs.reverse.dropWhile pyWhitespace).reverse
  match cs with
  | '+' :: rest => (parseHexPrefixed rest).map (fun n => (n : Int))
  | '-' :: rest => (parseHexPrefixed rest).map (fun n => -(n : Int))
  | rest => (parseHexPrefixed rest).map (fun n => (n : Int))

/-- Python's `^` on unbounded ints: two's-complement bitwise xor, with a
negative `n` standing for the infinite binary word of `-n - 1`
complemented. -/
def pyXor (a b : Int) : Int :=
  if 0 ≤ a then
    if 0 ≤ b then ((a.toNat ^^^ b.toNat : Nat) : Int)
    else -(((a.toNat ^^^ (-b - 1).toNat : Nat) : Int) + 1)
  else
    if 0 ≤ b then -((((-a - 1).toNat ^^^ b.toNat : Nat) : Int) + 1)
    else (((-a - 1).toNat ^^^ (-b - 1).toNat : Nat) : Int)

/-- Binary popcount with explicit structural fuel, so that concrete values
reduce inside the kernel; `fuel ≥ bit length` suffices and the recursion
stops as soon as the argument reaches 0. -/
def popcountFuel : Nat → Nat → Nat
  | 0, _ => 0
  | fuel + 1, n => if n = 0 then 0 else n % 2 + popcountFuel fuel (n / 2)

/-- Number of set bits of `n`; `n` itself is always enough fuel. -/
def popcount (n : Nat) : Nat :=
  popcountFuel n n

/-- Python's `bin(x).count("1")`: `bin` renders a minus sign followed by
the binary digits of the absolute value, so the count is the popcount of
`|x|`. -/
def pyBinCountOnes (x : Int) : Nat :=
  popcount x.natAbs

/-- Embedding of `DuplicateFinder._hamming_distance`: parse both hex
strings, xor, count set bits; a `ValueError` from either parse yields the
fail-safe maximum 64. -/
def hamming_distance (hash1 hash2 : String) : Nat :=
  match pyIntHex hash1, pyIntHex hash2 with
  | some a, some b => pyBinCountOnes (pyXor a b)
  | some _, none => 64
  | none, some _ => 64
  | none, none => 64

/-- Observable collaborator calls made by `detect_visual_duplicates`:
frame extraction, batch hashing, hash storage, and the cross-episode
duplicate query. -/
inductive VDEffect where
  | extractFrames
  | computeHashes
  | storeHashes
  | findDuplicates
deriving DecidableEq, Repr

/-- Failure outcomes of `detect_visual_duplicates`. -/
inductive VDError where
  | fileNotFound
  | frameExtraction
deriving DecidableEq, Repr

/-- Behaviour of the collaborators of `detect_visual_duplicates` on the
given video: the extracted frame file names (or an extraction failure),
the `(timestamp_ms, hash)` pairs the hasher produces from them (frames
whose hashing fails are already skipped inside `compute_hashes_batch`),
whether the repository insert succeeds (its failure is only logged), and
the duplicate matches found (or a query failure, downgraded to no
matches). -/
structure VDEnv where
  frames : Except Unit (List String)
  hashes : List (Int × String)
  store_ok : Bool
  duplicates : Except Unit (List DuplicateMatch)

/-- Python truthiness of the optional `episode_id: int | None` argument:
falsy exactly when `None` or `0`. -/
def pyFalsyOptInt : Option Int → Bool
  | none => true
  | some n => n = 0

/-- Embedding of `detect_visual_duplicates`
(detectors/visual_duplicate_detector.py) down to the grouping step, with
collaborator behaviour supplied by `env` and the collaborator calls
actually performed returned alongside the result. -/
def detect_visual_duplicates (path_exists has_db : Bool)
    (episode_id : Option Int) (env : VDEnv)
    (min_duration_ms gap_tolerance_ms : Int) :
    Except VDError (List SkipSegment) × List VDEffect :=
  if path_exists = false then (.error .fileNotFound, [])
  else if has_db = false ∨ pyFalsyOptInt episode_id = true then (.ok [], [])
  else
    match env.frames with
    | .error _ => (.error .frameExtraction, [.extractFrames])
    | .ok frame_list =>
      if frame_list = [] then (.ok [], [.extractFrames])
      else
        let hashes := env.hashes
        if hashes = [] then (.ok [], [.extractFrames, .computeHashes])
        else
          let duplicates := match env.duplicates with
            | .ok ds => ds
            | .error _ => []
          let segments :=
            group_duplicates_into_segments duplicates min_duration_ms gap_tolerance_ms
          (.ok segments,
            [.extractFrames, .computeHashes, .storeHashes, .findDuplicates])

/-- Heap with two overlapping scene objects, used to exhibit the in-place
mutation performed by `_merge_scene_lists`. -/
def exampleHeap : SceneHeap := fun i =>
  if i = 0 then ⟨0, 1000, 7⟩ else if i = 1 then ⟨950, 2000, 0⟩ else ⟨0, 1, 0⟩

/-- A duplicate match of episode 1 against episode 2 at the given source
timestamp, with Hamming distance 0. -/
def exampleMatch (ts : Int) : DuplicateMatch :=
  ⟨1, ts, "00", 2, ts, "00", 0⟩

/-- Three duplicate matches one sampling interval apart, the spec's
Scenario C input. -/
def exampleGroup : List DuplicateMatch :=
  [exampleMatch 0, exampleMatch 1000, exampleMatch 2000]

/-- The segment the grouping step builds from `exampleGroup`; confidence
and reason are kept as the defining expressions so that concrete runs
reduce to this record definitionally. -/
def exampleSegment : SkipSegment :=
  { start_ms := 0
    end_ms := 3000
    segment_type := "flashback"
    confidence := max 0 (min 1 (1 - group_avg_distance exampleGroup / 64))
    reason := "visual_duplicate(" ++ toString exampleGroup.length
      ++ " frames, avg_distance=" ++ toString (group_avg_distance exampleGroup) ++ ")" }

/-- Three duplicate matches whose consecutive gaps are exactly the default
tolerance, so the first and last are 4000 ms apart yet chain into one
group. -/
def exampleGroupWide : List DuplicateMatch :=
  [exampleMatch 0, exampleMatch 2000, exampleMatch 4000]

/-- The segment the grouping step builds from `exampleGroupWide`. -/
def exampleSegmentWide : SkipSegment :=
  { start_ms := 0
    end_ms := 5000
    segment_type := "flashback"
    confidence := max 0 (min 1 (1 - group_avg_distance exampleGroupWide / 64))
    reason := "visual_duplicate(" ++ toString exampleGroupWide.length
      ++ " frames, avg_distance=" ++ toString (group_avg_distance exampleGroupWide) ++ ")" }

/-- Merging with an empty second list returns the first list unchanged:
the `if not scenes2: return scenes1` shortcut. -/
lemma merge_scene_lists_nil (l : List SceneBoundary) :
    merge_scene_lists l [] = l := by
  simp [merge_scene_lists]

/-- C1 counterexample: in `hybrid_extended` mode the PySceneDetect call is
made outside any `try`, so its failure aborts the whole call even though
the neural scanner succeeded — contradicting "the detect call fails only
if every scanner fails". -/
theorem hybrid_extended_counterexample :
    detect_with_hybrid_extended (.error (.otherError "scene detect failed"))
        (.ok [⟨0, 1000, 0⟩]) (.ok []) (.ok [])
      = .error (.otherError "scene detect failed") := rfl

/-- C1 (amended): in `hybrid_extended` mode only the neural
(`RuntimeError` failures only), silence and credits scanners run behind
failure boundaries; the call succeeds exactly when the boundary scan
succeeds and the neural scan either succeeds or fails with a
`RuntimeError`; when only the boundary scan contributes, its scenes are
returned as-is. -/
theorem hybrid_extended_failure_semantics :
    (∀ b n s c, exceptOk (detect_with_hybrid_extended b n s c)
        = (exceptOk b && neuralAbsorbed n)) ∧
    (∀ e n s c, detect_with_hybrid_extended (.error e) n s c = .error e) ∧
    (∀ rb m ms mc, detect_with_hybrid_extended (.ok rb)
        (.error (.runtimeError m)) (.error ms) (.error mc) = .ok rb) := by
  refine ⟨?_, ?_, ?_⟩
  · intro b n s c
    cases b with
    | error e => rfl
    | ok rb =>
      cases n with
      | ok ln => rfl
      | error en =>
        cases en with
        | runtimeError m => rfl
        | otherError m => rfl
  · intro e n s c
    rfl
  · intro rb m ms mc
    simp only [detect_with_hybrid_extended, List.append_nil]
    by_cases h : rb = []
    · subst h
      rfl
    · rw [if_neg h, merge_scene_lists_nil]

/-- C4 counterexample: a failing backing-store write makes `set` raise
`CacheError` rather than degrade to a silent no-op. -/
theorem cache_set_silent_noop_counterexample :
    CacheManager.set defaultCacheConfig emptyIntStore 0 "k" (42 : Int) none false false
      = .error (.cacheError "k") := rfl

/-- C4 (amended): for every cache write on which the backing store fails,
`set` raises `CacheError` to the caller; write failures are surfaced, not
absorbed. -/
theorem cache_set_raises_on_write_failure {α : Type} (cfg : CacheConfig)
    (store : CacheStore α) (now : ℚ) (key : String) (value : α)
    (ttl : Option Int) (size_exceeded : Bool) (henabled : cfg.enabled = true) :
    CacheManager.set cfg store now key value ttl false size_exceeded
      = .error (.cacheError key) := by
  simp [CacheManager.set, henabled]

/-- Closed instance of `cache_set_raises_on_write_failure`. -/
theorem cache_set_raises_on_write_failure_witness :
    CacheManager.set defaultCacheConfig emptyIntStore 3 "other" (7 : Int)
        (some 60) false true = .error (.cacheError "other") :=
  cache_set_raises_on_write_failure defaultCacheConfig emptyIntStore 3 "other" 7
    (some 60) true rfl

/-- C8 counterexample: merging `[(0,1000)]` with `[(950,2000)]` overwrites
the first input object in place — after the call the object holds
`end_ms = 2000` and `scene_index = 0` instead of its original
`(0, 1000, 7)`. -/
theorem merge_obj_purity_counterexample :
    (merge_scene_lists_obj exampleHeap [0] [1]).fst 0 ≠ exampleHeap 0 := by
  decide

/-- C8 (amended): Interval Merge is not pure. When the second input list
is empty the first list itself is returned with the heap untouched (and
symmetrically); in the merging path the kept input object's `end_ms` is
extended and its `scene_index` rewritten in place, and the returned list
consists of those same mutated input objects. -/
theorem merge_obj_mutation_semantics :
    (∀ (h : SceneHeap) (ids1 : List Nat),
        merge_scene_lists_obj h ids1 [] = (h, ids1)) ∧
    ((merge_scene_lists_obj exampleHeap [0] [1]).fst 0 = ⟨0, 2000, 0⟩) ∧
    (exampleHeap 0 = ⟨0, 1000, 7⟩) ∧
    ((merge_scene_lists_obj exampleHeap [0] [1]).snd = [0]) := by
  refine ⟨?_, by decide, by decide, by decide⟩
  intro h ids1
  simp [merge_scene_lists_obj]

/-- C10: with an existing video path but no database, or a falsy
(`None` or `0`) episode id, `detect_visual_duplicates` returns the empty
segment list without error and performs no collaborator call. -/
theorem detect_visual_duplicates_falsy_guard (has_db : Bool)
    (episode_id : Option Int) (env : VDEnv) (min_d gap : Int)
    (h : has_db = false ∨ episode_id = none ∨ episode_id = some 0) :
    detect_visual_duplicates true has_db episode_id env min_d gap
      = (.ok [], []) := by
  have hguard : has_db = false ∨ pyFalsyOptInt episode_id = true := by
    rcases h with h | h | h
    · exact Or.inl h
    · rw [h]
      exact Or.inr rfl
    · rw [h]
      exact Or.inr (by simp [pyFalsyOptInt])
  unfold detect_visual_duplicates
  simp [hguard]

/-- Closed instance of `detect_visual_duplicates_falsy_guard` at
`episode_id = 0` with collaborators that would otherwise produce frames
and matches. -/
theorem detect_visual_duplicates_falsy_guard_witness :
    detect_visual_duplicates true true (some 0)
        ⟨.ok ["f1"], [(0, "00")], true, .ok [exampleMatch 0]⟩ 3000 2000
      = (.ok [], []) :=
  detect_visual_duplicates_falsy_guard true (some 0)
    ⟨.ok ["f1"], [(0, "00")], true, .ok [exampleMatch 0]⟩ 3000 2000
    (Or.inr (Or.inr rfl))

/-- A `get` on an enabled cache whose entry is fresh against the
store-wide TTL returns the stored value and leaves the store unchanged. -/
lemma cache_get_hit {α : Type} (cfg : CacheConfig) (store : CacheStore α)
    (now : ℚ) (key : String) (e : CacheEntry α) (hen : cfg.enabled = true)
    (hs : store (sanitize_key key) = some e)
    (hfresh : ¬ (cfg.ttl_seconds : ℚ) < now - e.timestamp) :
    CacheManager.get cfg store now key = (some e.value, store) := by
  unfold CacheManager.get
  rw [hen]
  simp only [Bool.true_eq_false, if_false, hs]
  rw [if_neg hfresh]

/-- C3 counterexample: with the default store-wide TTL of 86400 s, an
entry written by `set` with a per-entry ttl of 1 s is still returned by
`get` 1.1 s later — `get` compares the age against `config.ttl_seconds`,
ignoring the ttl the entry was stored with, so the claimed miss-and-delete
does not happen. -/
theorem cache_per_entry_ttl_counterexample :
    (match CacheManager.set defaultCacheConfig emptyIntStore 0 "k" (42 : Int)
        (some 1) true false with
     | .ok s => (CacheManager.get defaultCacheConfig s (11/10) "k").fst
     | .error _ => none) = some 42 := by
  have hset : CacheManager.set defaultCacheConfig emptyIntStore 0 "k" (42 : Int)
      (some 1) true false
      = .ok (fun k => if k = sanitize_key "k" then some ⟨42, 0, 1⟩
          else emptyIntStore k) := rfl
  rw [hset]
  have hhit := cache_get_hit defaultCacheConfig
      (fun k => if k = sanitize_key "k" then some ⟨42, 0, 1⟩ else emptyIntStore k)
      (11/10) "k" ⟨42, 0, 1⟩ rfl (by simp) (by norm_num [defaultCacheConfig])
  simp only [hhit]

/-- C3 (amended): for an enabled cache, `get` returns a miss exactly when
the key's entry is absent or its age exceeds the store-wide configured
`ttl_seconds` — not the per-entry ttl recorded by `set`, which only the
size-triggered cleanup honours; reading an expired entry deletes it from
the backing store, and an unexpired read returns the stored value and
leaves the store unchanged. -/
theorem cache_get_expiry_semantics {α : Type} (cfg : CacheConfig)
    (store : CacheStore α) (now : ℚ) (key : String)
    (henabled : cfg.enabled = true) :
    ((CacheManager.get cfg store now key).fst = none ↔
      store (sanitize_key key) = none ∨
        ∃ e, store (sanitize_key key) = some e ∧
          (cfg.ttl_seconds : ℚ) < now - e.timestamp) ∧
    (∀ e, store (sanitize_key key) = some e →
        (cfg.ttl_seconds : ℚ) < now - e.timestamp →
        (CacheManager.get cfg store now key).snd (sanitize_key key) = none) ∧
    (∀ e, store (sanitize_key key) = some e →
        ¬ (cfg.ttl_seconds : ℚ) < now - e.timestamp →
        CacheManager.get cfg store now key = (some e.value, store)) := by
  unfold CacheManager.get
  rw [henabled]
  simp only [Bool.true_eq_false, if_false]
  cases hstore : store (sanitize_key key) with
  | none =>
    refine ⟨by simp, ?_, ?_⟩
    · intro e he
      cases he
    · intro e he
      cases he
  | some entry =>
    by_cases hexp : (cfg.ttl_seconds : ℚ) < now - entry.timestamp
    · refine ⟨?_, ?_, ?_⟩
      · dsimp only
        rw [if_pos hexp]
        refine ⟨fun _ => Or.inr ⟨entry, rfl, hexp⟩, fun _ => rfl⟩
      · intro e he hlt
        dsimp only
        rw [if_pos hexp]
        exact if_pos rfl
      · intro e he hnlt
        have hee : entry = e := Option.some.inj he
        rw [← hee] at hnlt
        exact absurd hexp hnlt
    · refine ⟨?_, ?_, ?_⟩
      · dsimp only
        rw [if_neg hexp]
        constructor
        · intro hcontra
          exact absurd hcontra (by simp)
        · intro hcase
          rcases hcase with hnone | ⟨e, he, hlt⟩
          · cases hnone
          · have hee : entry = e := Option.some.inj he
            rw [← hee] at hlt
            exact absurd hlt hexp
      · intro e he hlt
        have hee : entry = e := Option.some.inj he
        rw [← hee] at hlt
        exact absurd hlt hexp
      · intro e he hnlt
        have hee : entry = e := Option.some.inj he
        dsimp only
        rw [if_neg hexp, ← hee]

/-- Closed instance of `cache_get_expiry_semantics`: a `get` on an absent
key misses. -/
theorem cache_get_expiry_semantics_witness :
    (CacheManager.get defaultCacheConfig emptyIntStore 5 "k").fst = none :=
  (cache_get_expiry_semantics defaultCacheConfig emptyIntStore 5 "k" rfl).1.mpr
    (Or.inl rfl)

/-- Python's int xor is commutative. -/
lemma pyXor_comm (a b : Int) : pyXor a b = pyXor b a := by
  unfold pyXor
  by_cases ha : 0 ≤ a <;> by_cases hb : 0 ≤ b <;>
    simp [ha, hb, Nat.xor_comm]

/-- Python's int xor of a value with itself is 0. -/
lemma pyXor_self (a : Int) : pyXor a a = 0 := by
  unfold pyXor
  by_cases ha : 0 ≤ a <;> simp [ha]

/-- A number below `2 ^ k` has at most `k` set bits, whatever the fuel. -/
lemma popcountFuel_le (fuel : Nat) :
    ∀ (n k : Nat), n < 2 ^ k → popcountFuel fuel n ≤ k := by
  induction fuel with
  | zero =>
    intro n k _
    exact Nat.zero_le k
  | succ fuel ih =>
    intro n k hn
    unfold popcountFuel
    by_cases h0 : n = 0
    · simp [h0]
    · rw [if_neg h0]
      cases k with
      | zero =>
        interval_cases n
        exact absurd rfl h0
      | succ k =>
        have hdiv : n / 2 < 2 ^ k := by
          have h2 : n < 2 ^ k * 2 := by
            rw [← pow_succ]
            exact hn
          omega
        have hrec := ih (n / 2) k hdiv
        have hmod : n % 2 ≤ 1 := by omega
        omega

/-- A number below `2 ^ k` has at most `k` set bits. -/
lemma popcount_le (n k : Nat) (hn : n < 2 ^ k) : popcount n ≤ k :=
  popcountFuel_le n n k hn

/-- C6 counterexample: `hamming_distance("zz","zz")` is 64, not 0 — the
fail-safe for unparsable operands wins over the reflexivity clause — and
on hex strings longer than 16 digits the result exceeds 64. -/
theorem hamming_distance_counterexample :
    hamming_distance "zz" "zz" = 64 ∧
    hamming_distance "fffffffffffffffff" "0" = 68 := by
  constructor
  · decide
  · decide

/-- C6 (amended): `hamming_distance` is symmetric for all strings;
`hamming_distance(a,a) = 0` for every `a` that parses as hex (for
unparsable operands the fail-safe yields 64 instead, even when the
operands are equal); the result is at most 64 whenever both operands parse
to values in `[0, 2^64)` — in particular for 64-bit hashes of at most 16
hex digits — and `hamming_distance("0000000000000000","ffffffffffffffff")`
is 64. -/
theorem hamming_distance_properties :
    (∀ a b, hamming_distance a b = hamming_distance b a) ∧
    (∀ a, (pyIntHex a).isSome = true → hamming_distance a a = 0) ∧
    (∀ a b, ((pyIntHex a).isNone = true ∨ (pyIntHex b).isNone = true) →
        hamming_distance a b = 64) ∧
    (∀ a b na nb, pyIntHex a = some na → pyIntHex b = some nb →
        0 ≤ na → na < 2 ^ 64 → 0 ≤ nb → nb < 2 ^ 64 →
        hamming_distance a b ≤ 64) ∧
    hamming_distance "0000000000000000" "ffffffffffffffff" = 64 := by
  refine ⟨?_, ?_, ?_, ?_, by decide⟩
  · intro a b
    unfold hamming_distance
    cases pyIntHex a <;> cases pyIntHex b <;> simp [pyXor_comm]
  · intro a ha
    unfold hamming_distance
    cases hx : pyIntHex a with
    | none =>
      rw [hx] at ha
      cases ha
    | some x =>
      simp [pyXor_self]
      rfl
  · intro a b hab
    unfold hamming_distance
    rcases hab with ha | hb
    · cases hx : pyIntHex a with
      | none => cases pyIntHex b <;> rfl
      | some x =>
        rw [hx] at ha
        cases ha
    · cases hy : pyIntHex b with
      | none => cases pyIntHex a <;> rfl
      | some y =>
        rw [hy] at hb
        cases hb
  · intro a b na nb hpa hpb hna0 hna hnb0 hnb
    unfold hamming_distance
    rw [hpa, hpb]
    dsimp only
    rw [pyXor, if_pos hna0, if_pos hnb0]
    unfold pyBinCountOnes
    have habs : ((na.toNat ^^^ nb.toNat : Nat) : Int).natAbs
        = na.toNat ^^^ nb.toNat := Int.natAbs_ofNat _
    rw [habs]
    apply popcount_le
    apply Nat.xor_lt_two_pow
    · omega
    · omega

/-- Invariant of the grouping walk: if the accumulated group ends in
`previous` and its consecutive gaps are within tolerance, every group the
walk eventually closes has consecutive gaps within tolerance. -/
lemma duplicate_groups_go_chain (gap : Int) :
    ∀ (rest grp : List DuplicateMatch) (prev : DuplicateMatch),
      grp.getLast? = some prev →
      List.Chain' (fun p c => c.source_timestamp_ms - p.source_timestamp_ms ≤ gap) grp →
      ∀ g ∈ duplicate_groups_go gap grp prev rest,
        List.Chain' (fun p c => c.source_timestamp_ms - p.source_timestamp_ms ≤ gap) g := by
  intro rest
  induction rest with
  | nil =>
    intro grp prev hlast hchain g hg
    simp only [duplicate_groups_go, List.mem_singleton] at hg
    rwa [hg]
  | cons current rest ih =>
    intro grp prev hlast hchain g hg
    unfold duplicate_groups_go at hg
    by_cases hgap : current.source_timestamp_ms - prev.source_timestamp_ms ≤ gap
    · rw [if_pos hgap] at hg
      refine ih (grp ++ [current]) current ?_ ?_ g hg
      · simp
      · rw [List.chain'_append]
        refine ⟨hchain, List.chain'_singleton _, ?_⟩
        intro x hx y hy
        rw [hlast, Option.mem_some_iff] at hx
        simp only [List.head?_cons, Option.mem_some_iff] at hy
        rw [← hx, ← hy]
        exact hgap
    · rw [if_neg hgap] at hg
      rcases List.mem_cons.mp hg with hg | hg
      · rwa [hg]
      · exact ih [current] current rfl (List.chain'_singleton _) g hg

/-- Every group closed by the grouping step has consecutive gaps within
the tolerance. -/
lemma duplicate_groups_chain (duplicates : List DuplicateMatch) (gap : Int) :
    ∀ g ∈ duplicate_groups duplicates gap,
      List.Chain' (fun p c => c.source_timestamp_ms - p.source_timestamp_ms ≤ gap) g := by
  intro g hg
  cases duplicates with
  | nil => cases hg
  | cons d rest =>
    exact duplicate_groups_go_chain gap rest [d] d rfl (List.chain'_singleton _) g hg

/-- C5 counterexample: matches at 0, 2000 and 4000 ms chain into a single
group — each consecutive gap equals the 2000 ms tolerance — and that group
survives as the single output segment `[0, 5000)`, so the matches at 0 and
4000 ms, which are 4000 > 2000 ms apart, land in the same output
segment. -/
theorem grouping_gap_counterexample :
    duplicate_groups exampleGroupWide 2000 = [exampleGroupWide] ∧
    group_duplicates_into_segments exampleGroupWide 3000 2000 = [exampleSegmentWide] ∧
    exampleMatch 0 ∈ exampleGroupWide ∧
    exampleMatch 4000 ∈ exampleGroupWide ∧
    (exampleMatch 4000).source_timestamp_ms - (exampleMatch 0).source_timestamp_ms
      > 2000 := by
  refine ⟨by decide, rfl, by decide, by decide, by decide⟩

/-- C5 (amended): every output segment of the grouping step comes from a
closed group in which no two consecutive matches (in input order) are more
than `gap_tolerance_ms` apart; matches further apart can still share a
segment through chains of within-tolerance gaps. -/
theorem grouping_gap_within_segment (duplicates : List DuplicateMatch)
    (min_duration_ms gap_tolerance_ms : Int) (s : SkipSegment)
    (hs : s ∈ group_duplicates_into_segments duplicates min_duration_ms
        gap_tolerance_ms) :
    ∃ g ∈ duplicate_groups duplicates gap_tolerance_ms,
      create_segment_from_group g min_duration_ms = some s ∧
      List.Chain' (fun p c =>
        c.source_timestamp_ms - p.source_timestamp_ms ≤ gap_tolerance_ms) g := by
  unfold group_duplicates_into_segments at hs
  rcases List.mem_filterMap.mp hs with ⟨g, hgmem, hcreate⟩
  exact ⟨g, hgmem, hcreate,
    duplicate_groups_chain duplicates gap_tolerance_ms g hgmem⟩

/-- Closed instance of `grouping_gap_within_segment` on Scenario C's
matches. -/
theorem grouping_gap_within_segment_witness :
    ∃ g ∈ duplicate_groups exampleGroup 2000,
      create_segment_from_group g 3000 = some exampleSegment ∧
      List.Chain' (fun p c =>
        c.source_timestamp_ms - p.source_timestamp_ms ≤ 2000) g :=
  grouping_gap_within_segment exampleGroup 3000 2000 exampleSegment
    (show exampleSegment ∈ [exampleSegment] from List.mem_singleton.mpr rfl)

/-- Every segment `_create_segment_from_group` accepts spans at least the
minimum duration. -/
lemma create_segment_min_duration (group : List DuplicateMatch)
    (min_duration_ms : Int) (s : SkipSegment)
    (hcreate : create_segment_from_group group min_duration_ms = some s) :
    min_duration_ms ≤ s.end_ms - s.start_ms := by
  by_cases hg : group = []
  · rw [create_segment_from_group, dif_pos hg] at hcreate
    cases hcreate
  · rw [create_segment_from_group, dif_neg hg] at hcreate
    dsimp only at hcreate
    by_cases hdur : (group.getLast hg).source_timestamp_ms + 1000
        - (group.head hg).source_timestamp_ms < min_duration_ms
    · rw [if_pos hdur] at hcreate
      cases hcreate
    · rw [if_neg hdur] at hcreate
      rw [← Option.some.inj hcreate]
      dsimp only
      omega

/-- C7: accepted segments start at the first match's timestamp, end one
1000 ms sampling window after the last match's timestamp, carry category
"flashback" and confidence `clamp(1 - avg_distance/64, 0, 1)`; a group is
rejected exactly when its span is below `min_duration_ms`, so no output
segment is ever shorter than `min_duration_ms`; and Scenario C's matches
at 0, 1000, 2000 ms with `min_duration_ms = 500` yield the single segment
`[0, 3000)`. -/
theorem segment_construction_properties :
    (∀ (group : List DuplicateMatch) (min_duration_ms : Int) (h : group ≠ [])
        (s : SkipSegment),
        create_segment_from_group group min_duration_ms = some s →
        s.start_ms = (group.head h).source_timestamp_ms ∧
        s.end_ms = (group.getLast h).source_timestamp_ms + 1000 ∧
        s.segment_type = "flashback" ∧
        s.confidence = max 0 (min 1 (1 - group_avg_distance group / 64))) ∧
    (∀ (group : List DuplicateMatch) (min_duration_ms : Int) (h : group ≠ []),
        (create_segment_from_group group min_duration_ms = none ↔
          (group.getLast h).source_timestamp_ms + 1000
            - (group.head h).source_timestamp_ms < min_duration_ms)) ∧
    (∀ (duplicates : List DuplicateMatch) (min_duration_ms gap_tolerance_ms : Int)
        (s : SkipSegment),
        s ∈ group_duplicates_into_segments duplicates min_duration_ms
          gap_tolerance_ms →
        min_duration_ms ≤ s.end_ms - s.start_ms) ∧
    group_duplicates_into_segments exampleGroup 500 2000 = [exampleSegment] ∧
    exampleSegment.start_ms = 0 ∧ exampleSegment.end_ms = 3000 ∧
    exampleSegment.segment_type = "flashback" := by
  refine ⟨?_, ?_, ?_, rfl, rfl, rfl, rfl⟩
  · intro group min_duration_ms h s hcreate
    rw [create_segment_from_group, dif_neg h] at hcreate
    dsimp only at hcreate
    by_cases hdur : (group.getLast h).source_timestamp_ms + 1000
        - (group.head h).source_timestamp_ms < min_duration_ms
    · rw [if_pos hdur] at hcreate
      cases hcreate
    · rw [if_neg hdur] at hcreate
      rw [← Option.some.inj hcreate]
      exact ⟨rfl, rfl, rfl, rfl⟩
  · intro group min_duration_ms h
    rw [create_segment_from_group, dif_neg h]
    dsimp only
    by_cases hdur : (group.getLast h).source_timestamp_ms + 1000
        - (group.head h).source_timestamp_ms < min_duration_ms
    · rw [if_pos hdur]
      simp [hdur]
    · rw [if_neg hdur]
      simp [hdur]
  · intro duplicates min_duration_ms gap_tolerance_ms s hs
    unfold group_duplicates_into_segments at hs
    rcases List.mem_filterMap.mp hs with ⟨g, _, hcreate⟩
    exact create_segment_min_duration g min_duration_ms s hcreate

/-- Closed instance of `segment_construction_properties` on Scenario C's
group. -/
theorem segment_construction_properties_witness :
    exampleSegment.start_ms
        = (exampleGroup.head (by decide)).source_timestamp_ms ∧
    exampleSegment.end_ms
        = (exampleGroup.getLast (by decide)).source_timestamp_ms + 1000 ∧
    exampleSegment.segment_type = "flashback" ∧
    exampleSegment.confidence
        = max 0 (min 1 (1 - group_avg_distance exampleGroup / 64)) :=
  segment_construction_properties.1 exampleGroup 3000 (by decide) exampleSegment rfl

/-- Closed instance of `hamming_distance_properties`: symmetry, zero on a
valid equal pair, fail-safe on an invalid operand, and the 64-bit range
bound on full-width hashes. -/
theorem hamming_distance_properties_witness :
    hamming_distance "ab" "cd" = hamming_distance "cd" "ab" ∧
    hamming_distance "ff" "ff" = 0 ∧
    hamming_distance "zz" "0" = 64 ∧
    hamming_distance "ffffffffffffffff" "0000000000000000" ≤ 64 :=
  ⟨hamming_distance_properties.1 "ab" "cd",
   hamming_distance_properties.2.1 "ff" (by decide),
   hamming_distance_properties.2.2.1 "zz" "0" (Or.inl (by decide)),
   hamming_distance_properties.2.2.2.1 "ffffffffffffffff" "0000000000000000"
     18446744073709551615 0 (by decide) (by decide) (by decide) (by decide)
     (by decide) (by decide)⟩

/-- The sweep never produces an empty list, and its first emitted interval
starts where the seed interval starts (merging only ever extends
`end_ms`). -/
lemma sweepMerge_head_start :
    ∀ (l : List SceneBoundary) (cur : SceneBoundary),
      ∃ c tl, sweepMerge cur l = c :: tl ∧ c.start_ms = cur.start_ms := by
  intro l
  induction l with
  | nil =>
    intro cur
    exact ⟨cur, [], rfl, rfl⟩
  | cons s rest ih =>
    intro cur
    simp only [sweepMerge]
    by_cases hcond : s.start_ms ≤ cur.end_ms + 100
    · rw [if_pos hcond]
      exact ih { cur with end_ms := max cur.end_ms s.end_ms }
    · rw [if_neg hcond]
      exact ⟨cur, sweepMerge s rest, rfl, rfl⟩

/-- Prepending an element below the head of a start-ordered chain keeps
the chain. -/
lemma chain_start_of_chain_cons {cur s : SceneBoundary} {rest : List SceneBoundary}
    (hcs : cur.start_ms ≤ s.start_ms)
    (h : List.Chain (fun a b => a.start_ms ≤ b.start_ms) s rest) :
    List.Chain (fun a b => a.start_ms ≤ b.start_ms) cur rest := by
  cases rest with
  | nil => exact List.Chain.nil
  | cons t ts =>
    cases h with
    | cons hst hchain => exact List.Chain.cons (le_trans hcs hst) hchain

/-- Sweeping a start-ordered run produces a list in which consecutive
intervals are start-ordered and separated by a gap of more than 100 ms. -/
lemma sweepMerge_chain :
    ∀ (l : List SceneBoundary) (cur : SceneBoundary),
      List.Chain (fun a b => a.start_ms ≤ b.start_ms) cur l →
      List.Chain' (fun a b => a.start_ms ≤ b.start_ms ∧ a.end_ms + 100 < b.start_ms)
        (sweepMerge cur l) := by
  intro l
  induction l with
  | nil =>
    intro cur _
    simp [sweepMerge]
  | cons s rest ih =>
    intro cur hchain
    cases hchain with
    | cons hcs hrest =>
      simp only [sweepMerge]
      by_cases hcond : s.start_ms ≤ cur.end_ms + 100
      · rw [if_pos hcond]
        exact ih _ (chain_start_of_chain_cons hcs hrest)
      · rw [if_neg hcond]
        rcases sweepMerge_head_start rest s with ⟨c, tl, heq, hcstart⟩
        rw [heq, List.chain'_cons]
        constructor
        · rw [hcstart]
          exact ⟨hcs, by omega⟩
        · rw [← heq]
          exact ih s hrest

/-- A list sorted by the `(start_ms, end_ms)` key is a start-ordered
chain. -/
lemma sorted_chain_start (x : SceneBoundary) (xs : List SceneBoundary)
    (h : List.Sorted sceneLe (x :: xs)) :
    List.Chain (fun a b => a.start_ms ≤ b.start_ms) x xs := by
  have h' : List.Chain' sceneLe (x :: xs) := List.Pairwise.chain' h
  have h2 : List.Chain sceneLe x xs := h'
  refine List.Chain.imp ?_ h2
  intro a b hab
  rcases hab with hlt | ⟨heq, _⟩
  · exact le_of_lt hlt
  · exact le_of_eq heq

/-- Re-indexing neither reorders the list nor touches `start_ms` or
`end_ms`, so it preserves the sweep's chain property. -/
lemma reindexFrom_chain :
    ∀ (l : List SceneBoundary) (n : Int),
      List.Chain' (fun a b => a.start_ms ≤ b.start_ms ∧ a.end_ms + 100 < b.start_ms) l →
      List.Chain' (fun a b => a.start_ms ≤ b.start_ms ∧ a.end_ms + 100 < b.start_ms)
        (reindexFrom n l) := by
  intro l
  induction l with
  | nil =>
    intro n _
    simp [reindexFrom]
  | cons a rest ih =>
    intro n h
    cases rest with
    | nil => simp [reindexFrom]
    | cons b rest2 =>
      rcases List.chain'_cons.mp h with ⟨hab, hrest⟩
      have htail := ih (n + 1) hrest
      simp only [reindexFrom] at htail ⊢
      rw [List.chain'_cons]
      exact ⟨hab, htail⟩

/-- Re-indexing preserves length. -/
lemma reindexFrom_length :
    ∀ (l : List SceneBoundary) (n : Int), (reindexFrom n l).length = l.length := by
  intro l
  induction l with
  | nil =>
    intro n
    rfl
  | cons a rest ih =>
    intro n
    simp only [reindexFrom, List.length_cons, ih]

/-- The indices written by re-indexing are consecutive from the start
value. -/
lemma reindexFrom_indices :
    ∀ (l : List SceneBoundary) (n : Int),
      (reindexFrom n l).map SceneBoundary.scene_index
        = (List.range l.length).map (fun i => n + Int.ofNat i) := by
  intro l
  induction l with
  | nil =>
    intro n
    rfl
  | cons a rest ih =>
    intro n
    simp only [reindexFrom, List.map_cons, List.length_cons,
      List.range_succ_eq_map, List.map_map]
    rw [List.cons.injEq]
    constructor
    · simp
    · rw [ih (n + 1)]
      apply List.map_congr_left
      intro i _
      simp only [Function.comp, Int.ofNat_eq_coe]
      push_cast
      ring

/-- C2 counterexample: with an empty second list, `_merge_scene_lists`
returns the first list untouched — here an unsorted list with stale
indices — so the claimed output invariants fail when one input is
empty. -/
theorem merge_scene_lists_empty_counterexample :
    merge_scene_lists [⟨1000, 2000, 5⟩, ⟨0, 100, 3⟩] []
        = [⟨1000, 2000, 5⟩, ⟨0, 100, 3⟩] ∧
    ¬ List.Chain' (fun a b => a.start_ms ≤ b.start_ms ∧ a.end_ms + 100 < b.start_ms)
        (merge_scene_lists [⟨1000, 2000, 5⟩, ⟨0, 100, 3⟩] []) ∧
    (merge_scene_lists [⟨1000, 2000, 5⟩, ⟨0, 100, 3⟩] []).map
        SceneBoundary.scene_index ≠ [0, 1] := by
  refine ⟨rfl, ?_, by decide⟩
  intro hchain
  exact absurd (List.chain'_cons.mp hchain).1.1 (by decide)

/-- C2 (amended): when both input lists are non-empty, the merge output is
sorted by start time, non-overlapping with a gap of more than 100 ms
(`ADJACENCY_MS`) between consecutive intervals, and its indices are
reassigned 0..n-1 in output order; when either input list is empty the
other list is returned unchanged, with none of these invariants
enforced. -/
theorem merge_scene_lists_properties (scenes1 scenes2 : List SceneBoundary)
    (h1 : scenes1 ≠ []) (h2 : scenes2 ≠ []) :
    List.Chain' (fun a b => a.start_ms ≤ b.start_ms ∧ a.end_ms + 100 < b.start_ms)
        (merge_scene_lists scenes1 scenes2) ∧
    (merge_scene_lists scenes1 scenes2).map SceneBoundary.scene_index
      = (List.range (merge_scene_lists scenes1 scenes2).length).map
          (fun i => Int.ofNat i) := by
  have hmerge : merge_scene_lists scenes1 scenes2
      = reindexFrom 0 (sweepAll (List.insertionSort sceneLe (scenes1 ++ scenes2))) := by
    rw [merge_scene_lists, if_neg h2, if_neg h1]
  cases hsort : List.insertionSort sceneLe (scenes1 ++ scenes2) with
  | nil =>
    exfalso
    have hlen := List.length_insertionSort sceneLe (scenes1 ++ scenes2)
    rw [hsort] at hlen
    simp only [List.length_nil, List.length_append] at hlen
    cases scenes1 with
    | nil => exact h1 rfl
    | cons x xs =>
      simp only [List.length_cons] at hlen
      omega
  | cons x xs =>
    have hsorted : List.Sorted sceneLe (x :: xs) := by
      rw [← hsort]
      exact List.sorted_insertionSort sceneLe _
    have hchain := sorted_chain_start x xs hsorted
    have hswept := sweepMerge_chain xs x hchain
    rw [hmerge, hsort]
    constructor
    · exact reindexFrom_chain _ 0 hswept
    · rw [reindexFrom_indices, reindexFrom_length]
      apply List.map_congr_left
      intro i _
      omega

/-- Closed instance of `merge_scene_lists_properties`, Scenario A's
adjacent pair. -/
theorem merge_scene_lists_properties_witness :
    List.Chain' (fun a b => a.start_ms ≤ b.start_ms ∧ a.end_ms + 100 < b.start_ms)
        (merge_scene_lists [⟨0, 1000, 3⟩] [⟨1050, 2000, 9⟩]) ∧
    (merge_scene_lists [⟨0, 1000, 3⟩] [⟨1050, 2000, 9⟩]).map
        SceneBoundary.scene_index
      = (List.range (merge_scene_lists [⟨0, 1000, 3⟩] [⟨1050, 2000, 9⟩]).length).map
          (fun i => Int.ofNat i) :=
  merge_scene_lists_properties [⟨0, 1000, 3⟩] [⟨1050, 2000, 9⟩]
    (by decide) (by decide)

/-- Re-indexing overwrites every `scene_index`, so two lists with the same
key sequence re-index to literally equal lists. -/
lemma reindexFrom_key_congr :
    ∀ (l1 l2 : List SceneBoundary) (n : Int),
      l1.map SceneBoundary.key = l2.map SceneBoundary.key →
      reindexFrom n l1 = reindexFrom n l2 := by
  intro l1
  induction l1 with
  | nil =>
    intro l2 n h
    cases l2 with
    | nil => rfl
    | cons b bs => simp at h
  | cons a as ih =>
    intro l2 n h
    cases l2 with
    | nil => simp at h
    | cons b bs =>
      simp only [List.map_cons, List.cons.injEq] at h
      obtain ⟨hk, ht⟩ := h
      simp only [reindexFrom, List.cons.injEq]
      constructor
      · cases a with
        | mk sa ea ia =>
          cases b with
          | mk sb eb ib =>
            simp only [SceneBoundary.key, Prod.mk.injEq] at hk
            simp only [SceneBoundary.mk.injEq]
            exact ⟨hk.1, hk.2, trivial⟩
      · exact ih bs (n + 1) ht

/-- The sweep's decisions and outputs depend only on the key sequence of
its input: seeds with equal keys and tails with equal key sequences sweep
to outputs with equal key sequences. -/
lemma sweepMerge_key_congr :
    ∀ (l1 l2 : List SceneBoundary) (c1 c2 : SceneBoundary),
      c1.key = c2.key →
      l1.map SceneBoundary.key = l2.map SceneBoundary.key →
      (sweepMerge c1 l1).map SceneBoundary.key
        = (sweepMerge c2 l2).map SceneBoundary.key := by
  intro l1
  induction l1 with
  | nil =>
    intro l2 c1 c2 hc hl
    cases l2 with
    | nil => simp [sweepMerge, hc]
    | cons b bs => simp at hl
  | cons a as ih =>
    intro l2 c1 c2 hc hl
    cases l2 with
    | nil => simp at hl
    | cons b bs =>
      simp only [List.map_cons, List.cons.injEq] at hl
      obtain ⟨hab, hasbs⟩ := hl
      have hstart : a.start_ms = b.start_ms := congrArg Prod.fst hab
      have hend : a.end_ms = b.end_ms := congrArg Prod.snd hab
      have hcstart : c1.start_ms = c2.start_ms := congrArg Prod.fst hc
      have hcend : c1.end_ms = c2.end_ms := congrArg Prod.snd hc
      simp only [sweepMerge]
      by_cases hcond : a.start_ms ≤ c1.end_ms + 100
      · rw [if_pos hcond, if_pos (by rw [← hstart, ← hcend]; exact hcond)]
        apply ih
        · simp only [SceneBoundary.key, Prod.mk.injEq]
          exact ⟨hcstart, by rw [hcend, hend]⟩
        · exact hasbs
      · rw [if_neg hcond, if_neg (by rw [← hstart, ← hcend]; exact hcond)]
        simp only [List.map_cons, List.cons.injEq]
        exact ⟨hc, ih bs a b hab hasbs⟩

/-- The whole merge core — sort already done — is determined by the key
sequence of its input list. -/
lemma merge_core_key_congr (l1 l2 : List SceneBoundary)
    (h : l1.map SceneBoundary.key = l2.map SceneBoundary.key) :
    reindexFrom 0 (sweepAll l1) = reindexFrom 0 (sweepAll l2) := by
  cases l1 with
  | nil =>
    cases l2 with
    | nil => rfl
    | cons b bs => simp at h
  | cons a as =>
    cases l2 with
    | nil => simp at h
    | cons b bs =>
      simp only [List.map_cons, List.cons.injEq] at h
      exact reindexFrom_key_congr _ _ 0 (sweepMerge_key_congr as bs a b h.1 h.2)

/-- Mapping the sort key through the record-level insertion sort gives the
insertion sort of the key sequence. -/
lemma insertionSort_key_map (l : List SceneBoundary) :
    (List.insertionSort sceneLe l).map SceneBoundary.key
      = List.insertionSort pairLe (l.map SceneBoundary.key) :=
  List.map_insertionSort sceneLe pairLe SceneBoundary.key l
    (fun _ _ _ _ => Iff.rfl)

/-- Sorting two permutation-equal key lists by the (antisymmetric, total,
transitive) lexicographic key order gives the same list. -/
lemma insertionSort_pairLe_perm_eq (m1 m2 : List (Int × Int))
    (h : m1.Perm m2) :
    List.insertionSort pairLe m1 = List.insertionSort pairLe m2 :=
  List.eq_of_perm_of_sorted
    (((List.perm_insertionSort pairLe m1).trans h).trans
      (List.perm_insertionSort pairLe m2).symm)
    (List.sorted_insertionSort pairLe m1)
    (List.sorted_insertionSort pairLe m2)

/-- C9: Interval Merge is idempotent — re-merging the merged output (the
optional second list absent, i.e. empty) returns it unchanged — and
commutative in its two input lists: sorting by `(start_ms, end_ms)`
normalizes the concatenation order, the sweep depends only on that sorted
key sequence, and re-indexing overwrites the only field on which tied
scenes could differ. -/
theorem merge_scene_lists_algebraic :
    (∀ A B, merge_scene_lists (merge_scene_lists A B) [] = merge_scene_lists A B) ∧
    (∀ A B, merge_scene_lists A B = merge_scene_lists B A) := by
  constructor
  · intro A B
    exact merge_scene_lists_nil _
  · intro A B
    by_cases hB : B = []
    · subst hB
      rw [merge_scene_lists_nil]
      by_cases hA : A = []
      · subst hA
        rfl
      · rw [merge_scene_lists, if_neg hA, if_pos rfl]
    · by_cases hA : A = []
      · subst hA
        rw [merge_scene_lists_nil, merge_scene_lists, if_neg hB, if_pos rfl]
      · rw [merge_scene_lists, if_neg hB, if_neg hA,
          merge_scene_lists, if_neg hA, if_neg hB]
        apply merge_core_key_congr
        rw [insertionSort_key_map, insertionSort_key_map]
        exact insertionSort_pairLe_perm_eq _ _
          (List.Perm.map SceneBoundary.key List.perm_append_comm)
